import Mathlib

/-!
Verification of the codec combinator library (src/src/index.ts).

The library is TypeScript; its static types are erased at runtime, so the
faithful shallow embedding works over a single type of JavaScript runtime
values.  A codec is a pair of functions: an encoder from runtime values
to generic tree nodes, and a decoder from tree nodes to a Result.  A
decoder can, besides returning a Result, raise a JavaScript exception
(for example, property access on null); we model a raised exception as
the Except.error branch of the decode type, and an in-band Result as the
Except.ok branch.
-/

set_option maxRecDepth 4000

namespace CodecLib

/-- Model of a JavaScript runtime value: the generic tree nodes produced
by encoding (object, array, string, number, boolean, null) plus the
undefined value produced by property access on a missing key.  JavaScript
numbers are IEEE doubles; the claims under study only involve integral
values, so numbers are modelled as integers. -/
inductive JS : Type where
  | str : String → JS
  | num : Int → JS
  | bool : Bool → JS
  | null : JS
  | arr : List JS → JS
  | obj : List (String × JS) → JS
  | undefined : JS
  deriving Repr

/-- The typeof operator.  Note that typeof null is the string "object",
and typeof of an array is also "object". -/
def jsTypeof : JS → String
  | .str _ => "string"
  | .num _ => "number"
  | .bool _ => "boolean"
  | .null => "object"
  | .arr _ => "object"
  | .obj _ => "object"
  | .undefined => "undefined"

/-- JavaScript truthiness test, negated: the falsy values are undefined,
null, false, 0 and the empty string.  Arrays and objects are always
truthy.  (NaN is also falsy in JavaScript but does not arise in the
integer number model.) -/
def falsy : JS → Bool
  | .undefined => true
  | .null => true
  | .bool b => !b
  | .num n => n == 0
  | .str s => s == ""
  | .arr _ => false
  | .obj _ => false

/-- First-match lookup of a key in the field list of an object node.
JavaScript objects have at most one entry per key, so first match is
exact. -/
def lookupField : List (String × JS) → String → Option JS
  | [], _ => none
  | kv :: rest, k => if kv.1 = k then some kv.2 else lookupField rest k

/-- Is the string the canonical decimal representation of an array index:
nonempty, all digits, no leading zero except for "0" itself. -/
def canonicalIndex (k : String) : Option Nat :=
  match k.toList with
  | [] => none
  | c :: cs =>
      if (c :: cs).all (fun ch => ch.isDigit) && (c != '0' || cs.isEmpty) then
        some ((c :: cs).foldl (fun acc ch => 10 * acc + (ch.toNat - 48)) 0)
      else none

/-- Property access v[k], with a raised TypeError (Except.error) when the
base value is null or undefined.  On objects it is key lookup, yielding
undefined for a missing key; arrays and strings expose length and their
indexed elements; numbers and booleans have no own properties of
interest and yield undefined. -/
def getPropE : JS → String → Except String JS
  | .null, k => .error ("TypeError: Cannot read properties of null (reading " ++ k ++ ")")
  | .undefined, k => .error ("TypeError: Cannot read properties of undefined (reading " ++ k ++ ")")
  | .obj kvs, k => .ok ((lookupField kvs k).getD .undefined)
  | .arr xs, k =>
      .ok (if k = "length" then .num xs.length
        else match canonicalIndex k with
          | some i => (xs.getD i .undefined)
          | none => .undefined)
  | .str s, k =>
      .ok (if k = "length" then .num s.length
        else match canonicalIndex k with
          | some i =>
              match s.toList[i]? with
              | some ch => .str (String.mk [ch])
              | none => .undefined
          | none => .undefined)
  | .num _, _ => .ok .undefined
  | .bool _, _ => .ok .undefined

/-- Total property access, used where the base value can never be null or
undefined (the projection r[key] applied to a record value of the typed
encode domain).  Out of that domain it returns undefined where the
exceptional version raises. -/
def getProp (v : JS) (k : String) : JS :=
  match getPropE v k with
  | .ok w => w
  | .error _ => .undefined

/-- Result type of a decode: either a failure with an error message, or a
success with a value. -/
inductive Result (A : Type) : Type where
  | err : String → Result A
  | ok : A → Result A
  deriving Repr

/-- The outcome of running a decoder: Except.error is a raised JavaScript
exception escaping the decoder, Except.ok is the in-band Result. -/
abbrev DecodeOut (A : Type) : Type := Except String (Result A)

/-- mapResult: apply a function to a decoded value, if it was decoded
successfully; a failure is returned unchanged. -/
def mapResult {A B : Type} (result : Result A) (f : A → B) : Result B :=
  match result with
  | .ok v => .ok (f v)
  | .err e => .err e

/-- A codec over runtime values: the SerDe pair of an encode function and
a decode function.  The static type parameters of the TypeScript class
are erased at runtime. -/
structure Codec : Type where
  encode : JS → JS
  decode : JS → DecodeOut JS

/-- Codec.fromJSON: parse the text with the external JSON.parse
collaborator, then decode the resulting tree.  The parse function is a
parameter (it is outside the repository); Except.error models a thrown
parse fault.  The source has no try/catch here, so a parse fault
propagates out of fromJSON. -/
def Codec.fromJSON (c : Codec) (parse : String → Except String JS) (json : String) :
    DecodeOut JS :=
  match parse json with
  | .error e => .error e
  | .ok data => c.decode data

/-- Codec.sel: contravariant retargeting; the encode side first projects
with extract, the decode side is unchanged. -/
def Codec.sel (c : Codec) (extract : JS → JS) : Codec where
  encode := fun y => c.encode (extract y)
  decode := c.decode

/-- Codec.map: the encode side is unchanged, the decode side maps the
Result through mapResult.  A raised exception in the underlying decode
propagates before mapResult is reached. -/
def Codec.map (c : Codec) (f : JS → JS) : Codec where
  encode := c.encode
  decode := fun data =>
    match c.decode data with
    | .error e => .error e
    | .ok r => .ok (mapResult r f)

/-- Codec.filter: decode with the underlying codec; pass a failure (or a
raised exception) through unchanged; on success, replace the result by a
failure carrying the given error message when the condition rejects the
value. -/
def Codec.filter (c : Codec) (error : String) (cond : JS → Bool) : Codec where
  encode := c.encode
  decode := fun data =>
    match c.decode data with
    | .error e => .error e
    | .ok (.err e) => .ok (.err e)
    | .ok (.ok v) => if cond v then .ok (.ok v) else .ok (.err error)

/-- The string codec: encode is the identity; decode succeeds exactly on
nodes of typeof "string". -/
def string : Codec where
  encode := fun s => s
  decode := fun data =>
    .ok (if jsTypeof data = "string" then .ok data else .err "expected string")

/-- The number codec: encode is the identity; decode succeeds exactly on
nodes of typeof "number".  The error message of the source carries a
trailing space, kept here verbatim. -/
def number : Codec where
  encode := fun s => s
  decode := fun data =>
    .ok (if jsTypeof data = "number" then .ok data else .err "expected number ")

/-- The boolean codec: encode is the identity; decode succeeds exactly on
nodes of typeof "boolean". -/
def boolean : Codec where
  encode := fun s => s
  decode := fun data =>
    .ok (if jsTypeof data = "boolean" then .ok data else .err "expected boolean")

/-- The item loop of decodeArray: decode each item in order, propagating
the first failure (or raised exception) and collecting the values in
input order. -/
def decodeArrayItems (c : Codec) : List JS → DecodeOut (List JS)
  | [] => .ok (.ok [])
  | x :: rest =>
    match c.decode x with
    | .error e => .error e
    | .ok (.err e) => .ok (.err e)
    | .ok (.ok w) =>
      match decodeArrayItems c rest with
      | .error e => .error e
      | .ok (.err e) => .ok (.err e)
      | .ok (.ok ws) => .ok (.ok (w :: ws))

/-- decodeArray: Array.isArray is true exactly of array nodes; any other
node fails with "expected array"; otherwise run the item loop. -/
def decodeArray (data : JS) (c : Codec) : DecodeOut JS :=
  match data with
  | .arr xs =>
    match decodeArrayItems c xs with
    | .error e => .error e
    | .ok (.err e) => .ok (.err e)
    | .ok (.ok ws) => .ok (.ok (.arr ws))
  | _ => .ok (.err "expected array")

/-- The array combinator: encode maps the element encoder over the items;
decode is decodeArray.  Encode is only ever applied to array values of
the typed domain; on any other value the source would raise, which no
theorem below reaches. -/
def array (c : Codec) : Codec where
  encode := fun xs =>
    match xs with
    | .arr items => .arr (items.map c.encode)
    | other => other
  decode := fun data => decodeArray data c

/-- encodeRecord: build an object node whose keys are the declared field
names in declaration order, each field encoded from the whole entity by
its (enlarged) codec.  Declared field names are distinct in the source
(they are the keys of a TypeScript object type), so the list
representation matches the object built by repeated assignment. -/
def encodeRecord (x : JS) (codecs : List (String × Codec)) : JS :=
  .obj (codecs.map (fun kc => (kc.1, kc.2.encode x)))

/-- The field loop of decodeRecord: for each declared field in order,
access data[key] (which raises on a null base), treat a falsy value as a
missing field, decode the value with the field codec propagating the
first failure, and assemble the decoded fields in declaration order. -/
def decodeRecordFields (data : JS) : List (String × Codec) → DecodeOut (List (String × JS))
  | [] => .ok (.ok [])
  | (k, c) :: rest =>
    match getPropE data k with
    | .error e => .error e
    | .ok val =>
      if falsy val then .ok (.err ("missing field " ++ k))
      else
        match c.decode val with
        | .error e => .error e
        | .ok (.err e) => .ok (.err e)
        | .ok (.ok w) =>
          match decodeRecordFields data rest with
          | .error e => .error e
          | .ok (.err e) => .ok (.err e)
          | .ok (.ok ws) => .ok (.ok ((k, w) :: ws))

/-- decodeRecord: fail with "expected object" when typeof data is not
"object" (note: arrays and null both have typeof "object" and pass this
check), then run the field loop. -/
def decodeRecord (data : JS) (codecs : List (String × Codec)) : DecodeOut JS :=
  if jsTypeof data = "object" then
    match decodeRecordFields data codecs with
    | .error e => .error e
    | .ok (.err e) => .ok (.err e)
    | .ok (.ok kvs) => .ok (.ok (.obj kvs))
  else .ok (.err "expected object")

/-- sameRecord: the record-shaped codec over a field list whose codecs
already target the common entity type. -/
def sameRecord (codecs : List (String × Codec)) : Codec where
  encode := fun x => encodeRecord x codecs
  decode := fun data => decodeRecord data codecs

/-- The enlarged field list built by the record combinator: each field
codec is retargeted to the whole record by selecting the field out of
it.  Selection does not change the decode side. -/
def enlarge (codecs : List (String × Codec)) : List (String × Codec) :=
  codecs.map (fun kc => (kc.1, kc.2.sel (fun r => getProp r kc.1)))

/-- The record combinator: enlarge each field codec by selecting the
field out of the whole record, then encode and decode with the enlarged
field list. -/
def record (codecs : List (String × Codec)) : Codec where
  encode := fun x => encodeRecord x (enlarge codecs)
  decode := fun data => decodeRecord data (enlarge codecs)

/-- mapRecord: sameRecord composed with map. -/
def mapRecord (codecs : List (String × Codec)) (f : JS → JS) : Codec :=
  (sameRecord codecs).map f

/-- A model of the external JSON.parse collaborator restricted to a
malformed input: it faults (raises) on everything, as JSON.parse does on
text such as a lone opening brace. -/
def parseFaulting : String → Except String JS :=
  fun _ => .error "SyntaxError: Unexpected end of JSON input"

mutual

/-- Syntax of codecs built from the public combinators: the three
primitives, the array combinator, map together with sel (the iso stage,
covering map and mapRecord usage where a transform is paired with a
selection), and the record combinator over a declared field list. -/
inductive CodecExpr : Type where
  | cstring : CodecExpr
  | cnumber : CodecExpr
  | cboolean : CodecExpr
  | carray : CodecExpr → CodecExpr
  | ciso : CodecExpr → (JS → JS) → (JS → JS) → CodecExpr
  | crecord : CFields → CodecExpr

/-- A declared field list of a record codec: names with field codecs, in
declaration order. -/
inductive CFields : Type where
  | fnil : CFields
  | fcons : String → CodecExpr → CFields → CFields

end

mutual

/-- Interpret a codec expression as the codec the library builds: each
constructor maps to the corresponding public combinator. -/
def interp : CodecExpr → Codec
  | .cstring => string
  | .cnumber => number
  | .cboolean => boolean
  | .carray c => array (interp c)
  | .ciso c f g => ((interp c).map f).sel g
  | .crecord fs => record (interpFields fs)

/-- Interpret a declared field list as a list of named codecs. -/
def interpFields : CFields → List (String × Codec)
  | .fnil => []
  | .fcons k c rest => (k, interp c) :: interpFields rest

end

/-- The declared field names of a field list, in declaration order. -/
def fieldNames : CFields → List String
  | .fnil => []
  | .fcons k _ rest => k :: fieldNames rest

mutual

/-- The encode domain of a codec expression: the runtime values the
TypeScript type of the codec ranges over.  A record value is an object
node with exactly the declared keys, in declaration order and with
distinct names (as the keys of a TypeScript object type are), each field
value in the field codec domain; an iso stage requires the transform to
undo the selection on the value at hand. -/
def Dom : CodecExpr → JS → Prop
  | .cstring, v => ∃ s, v = .str s
  | .cnumber, v => ∃ n, v = .num n
  | .cboolean, v => ∃ b, v = .bool b
  | .carray c, v => ∃ xs, v = .arr xs ∧ ∀ x ∈ xs, Dom c x
  | .ciso c f g, v => Dom c (g v) ∧ f (g v) = v
  | .crecord fs, v =>
      (∃ kvs, v = .obj kvs ∧ kvs.map Prod.fst = fieldNames fs) ∧
      (fieldNames fs).Nodup ∧ DomFields fs v

/-- Every declared field value of the record value is in the domain of
the corresponding field codec. -/
def DomFields : CFields → JS → Prop
  | .fnil, _ => True
  | .fcons k c rest, v => Dom c (getProp v k) ∧ DomFields rest v

end

mutual

/-- Every record field encountered while encoding the value encodes to a
truthy node.  This is the side condition forced by the falsy-field
presence check of decodeRecord. -/
def EncTruthy : CodecExpr → JS → Prop
  | .cstring, _ => True
  | .cnumber, _ => True
  | .cboolean, _ => True
  | .carray c, v => ∀ xs, v = .arr xs → ∀ x ∈ xs, EncTruthy c x
  | .ciso c _ g, v => EncTruthy c (g v)
  | .crecord fs, v => EncTruthyFields fs v

/-- Fieldwise truthiness of the encoded record: each declared field of
the value encodes to a truthy node and recursively satisfies the
condition. -/
def EncTruthyFields : CFields → JS → Prop
  | .fnil, _ => True
  | .fcons k c rest, v =>
      falsy ((interp c).encode (getProp v k)) = false ∧
      EncTruthy c (getProp v k) ∧ EncTruthyFields rest v

end

/-- The record value reassembled by decodeRecordFields on a round trip:
each declared field name paired with the field value of the original
record, in declaration order. -/
def fieldsOf : CFields → JS → List (String × JS)
  | .fnil, _ => []
  | .fcons k _ rest, v => (k, getProp v k) :: fieldsOf rest v

/-- The encoded entries of a record value: each declared field name
paired with the encoding of the field value by the field codec, in
declaration order.  This is the entry list of the object encodeRecord
produces on the enlarged field list. -/
def encFields : CFields → JS → List (String × JS)
  | .fnil, _ => []
  | .fcons k c rest, v => (k, (interp c).encode (getProp v k)) :: encFields rest v

/-- Each declared field of the field list looks up, in the entry list E,
to exactly the encoding of its field value. -/
def EncLookups : CFields → List (String × JS) → JS → Prop
  | .fnil, _, _ => True
  | .fcons k c rest, E, v =>
      lookupField E k = some ((interp c).encode (getProp v k)) ∧ EncLookups rest E v

/-! ## Theorems -/

/-- Claim C9: for each primitive codec (string, number, boolean), encode
is the identity on its value; decode of a node whose runtime kind
matches succeeds with the value unchanged; decode of a node of any other
runtime kind fails with a message naming the expected kind, never a
coerced value.  (The number message of the source carries a trailing
space.) -/
theorem C9_primitive_codecs :
    ((∀ v, string.encode v = v) ∧
      (∀ v, jsTypeof v = "string" → string.decode v = .ok (.ok v)) ∧
      (∀ v, jsTypeof v ≠ "string" → string.decode v = .ok (.err "expected string"))) ∧
    ((∀ v, number.encode v = v) ∧
      (∀ v, jsTypeof v = "number" → number.decode v = .ok (.ok v)) ∧
      (∀ v, jsTypeof v ≠ "number" → number.decode v = .ok (.err "expected number "))) ∧
    ((∀ v, boolean.encode v = v) ∧
      (∀ v, jsTypeof v = "boolean" → boolean.decode v = .ok (.ok v)) ∧
      (∀ v, jsTypeof v ≠ "boolean" → boolean.decode v = .ok (.err "expected boolean"))) := by
  refine ⟨⟨fun v => rfl, fun v h => ?_, fun v h => ?_⟩,
    ⟨fun v => rfl, fun v h => ?_, fun v h => ?_⟩,
    ⟨fun v => rfl, fun v h => ?_, fun v h => ?_⟩⟩ <;>
    simp [string, number, boolean, h]

/-- Witness for C9: decoding true with the number codec and the text
node "1" with the boolean codec yield typed-mismatch failures; a
matching string node is returned unchanged. -/
theorem C9_primitive_codecs_witness :
    number.decode (.bool true) = .ok (.err "expected number ") ∧
    boolean.decode (.str "1") = .ok (.err "expected boolean") ∧
    string.decode (.str "a") = .ok (.ok (.str "a")) ∧
    number.encode (.num 5) = .num 5 :=
  ⟨C9_primitive_codecs.2.1.2.2 (.bool true) (by decide),
    C9_primitive_codecs.2.2.2.2 (.str "1") (by decide),
    C9_primitive_codecs.1.2.1 (.str "a") (by decide),
    C9_primitive_codecs.2.1.1 (.num 5)⟩

/-- Claim C7: the decode of map(f) passes an underlying failure through
with the same message and never invokes f on failure (the outcome does
not depend on f), maps an underlying success through f, and the encode
side of map(f) is exactly the underlying encode. -/
theorem C7_map_transform (c : Codec) (f : JS → JS) (data : JS) :
    ((c.map f).encode = c.encode) ∧
    (∀ e, c.decode data = .ok (.err e) → (c.map f).decode data = .ok (.err e)) ∧
    (∀ g e, c.decode data = .ok (.err e) →
      (c.map f).decode data = (c.map g).decode data) ∧
    (∀ a, c.decode data = .ok (.ok a) → (c.map f).decode data = .ok (.ok (f a))) := by
  refine ⟨rfl, fun e h => ?_, fun g e h => ?_, fun a h => ?_⟩ <;>
    simp [Codec.map, mapResult, h]

/-- Witness for C7: mapping over the number codec passes the mismatch
failure on a text node through unchanged and maps a numeric success. -/
theorem C7_map_transform_witness :
    (number.map (fun v => v)).decode (.str "x") = .ok (.err "expected number ") ∧
    (number.map (fun _ => JS.bool true)).decode (.num 3) = .ok (.ok (.bool true)) :=
  ⟨(C7_map_transform number (fun v => v) (.str "x")).2.1 "expected number " rfl,
    (C7_map_transform number (fun _ => JS.bool true) (.num 3)).2.2.2 (.num 3) rfl⟩

/-- Claim C8: filter(m, p) replaces an accepted decode by itself, a
rejected decode by a failure carrying exactly m, and passes an
underlying failure through unchanged without invoking p (the outcome on
an underlying failure does not depend on p). -/
theorem C8_filter (c : Codec) (m : String) (p : JS → Bool) (data : JS) :
    (∀ a, c.decode data = .ok (.ok a) → p a = false →
      (c.filter m p).decode data = .ok (.err m)) ∧
    (∀ a, c.decode data = .ok (.ok a) → p a = true →
      (c.filter m p).decode data = .ok (.ok a)) ∧
    (∀ e, c.decode data = .ok (.err e) → (c.filter m p).decode data = .ok (.err e)) ∧
    (∀ q e, c.decode data = .ok (.err e) →
      (c.filter m p).decode data = (c.filter m q).decode data) := by
  refine ⟨fun a h hp => ?_, fun a h hp => ?_, fun e h => ?_, fun q e h => ?_⟩
  · simp [Codec.filter, h, hp]
  · simp [Codec.filter, h, hp]
  · simp [Codec.filter, h]
  · simp [Codec.filter, h]

/-- Witness for C8: filtering the number codec for positivity rejects
zero with exactly the given message, accepts a positive number
unchanged, and passes the mismatch failure on a text node through. -/
theorem C8_filter_witness :
    (number.filter "not positive" (fun v => falsy v = false)).decode (.num 0) =
      .ok (.err "not positive") ∧
    (number.filter "not positive" (fun v => falsy v = false)).decode (.num 3) =
      .ok (.ok (.num 3)) ∧
    (number.filter "not positive" (fun v => falsy v = false)).decode (.str "x") =
      .ok (.err "expected number ") :=
  ⟨(C8_filter number "not positive" (fun v => falsy v = false) (.num 0)).1
      (.num 0) rfl (by decide),
    (C8_filter number "not positive" (fun v => falsy v = false) (.num 3)).2.1
      (.num 3) rfl (by decide),
    (C8_filter number "not positive" (fun v => falsy v = false) (.str "x")).2.2.1
      "expected number " rfl⟩

/-- Counterexample to claim C2: fromJSON has no try/catch around the
external parse, so a parse fault on malformed text propagates out of
fromJSON as a raised fault (the Except.error branch) instead of being
converted into a Result failure, contradicting the claim that the fault
is caught at this boundary. -/
theorem C2_counterexample :
    string.fromJSON parseFaulting "\x7b" =
      .error "SyntaxError: Unexpected end of JSON input" := rfl

/-- Claim C2 as amended: fromJSON parses then decodes with no exception
handling; whenever the external parse faults on the given text, fromJSON
propagates that fault unchanged (it never reaches the decoder and never
produces a Result). -/
theorem C2_fromJSON_amended (c : Codec) (parse : String → Except String JS)
    (s e : String) (h : parse s = .error e) : c.fromJSON parse s = .error e := by
  simp [Codec.fromJSON, h]

/-- Witness for the amended C2: the boolean codec with the faulting
parse model propagates the fault on a malformed input. -/
theorem C2_fromJSON_amended_witness :
    boolean.fromJSON parseFaulting "[1," =
      .error "SyntaxError: Unexpected end of JSON input" :=
  C2_fromJSON_amended boolean parseFaulting "[1,"
    "SyntaxError: Unexpected end of JSON input" rfl

/-- Counterexample to claim C4: decoding an array node against a record
codec does not fail with "expected object" — typeof of an array is
"object", so the array passes the shape check and the decoder proceeds
to the field loop, failing with "missing field name" instead. -/
theorem C4_counterexample :
    (record [("name", string)]).decode (.arr []) =
      .ok (.err "missing field name") ∧
    "missing field name" ≠ "expected object" :=
  ⟨rfl, by decide⟩

/-- Claim C4 as amended: a record codec fails with "expected object"
exactly on nodes whose runtime typeof is not "object" (strings, numbers,
booleans, undefined); arrays and null pass the typeof check — an array
is traversed as a mapping (typically failing later, for example with a
missing-field message), and null makes the first field access raise an
uncaught TypeError. -/
theorem C4_record_shape_amended :
    (∀ (codecs : List (String × Codec)) data, jsTypeof data ≠ "object" →
      (record codecs).decode data = .ok (.err "expected object")) ∧
    (∀ (k : String) (c : Codec) (rest : List (String × Codec)),
      (record ((k, c) :: rest)).decode .null =
        .error ("TypeError: Cannot read properties of null (reading " ++ k ++ ")")) := by
  constructor
  · intro codecs data h
    simp [record, decodeRecord, h]
  · intro k c rest
    simp [record, decodeRecord, jsTypeof, decodeRecordFields, getPropE]

/-- Witness for the amended C4: a number node is rejected with
"expected object", while null raises a TypeError out of the decoder. -/
theorem C4_record_shape_amended_witness :
    (record [("name", string)]).decode (.num 1) = .ok (.err "expected object") ∧
    (record [("name", string)]).decode .null =
      .error "TypeError: Cannot read properties of null (reading name)" :=
  ⟨C4_record_shape_amended.1 [("name", string)] (.num 1) (by decide),
    C4_record_shape_amended.2 "name" string []⟩

/-- The item loop of decodeArray splits over list append: the outcome on
a concatenation is the outcome on the first part, and on a full success
of the first part the outcome of the second part with the collected
values concatenated. -/
theorem decodeArrayItems_append (c : Codec) (l₁ l₂ : List JS) :
    decodeArrayItems c (l₁ ++ l₂) =
      match decodeArrayItems c l₁ with
      | .error e => .error e
      | .ok (.err e) => .ok (.err e)
      | .ok (.ok ws) =>
        match decodeArrayItems c l₂ with
        | .error e => .error e
        | .ok (.err e) => .ok (.err e)
        | .ok (.ok ws₂) => .ok (.ok (ws ++ ws₂)) := by
  induction l₁ with
  | nil =>
    simp only [List.nil_append, decodeArrayItems]
    cases h : decodeArrayItems c l₂ with
    | error e => rfl
    | ok r => cases r <;> rfl
  | cons x xs ih =>
    cases hd : c.decode x with
    | error e => simp [decodeArrayItems, hd]
    | ok r =>
      cases r with
      | err e => simp [decodeArrayItems, hd]
      | ok w =>
        simp only [List.cons_append, decodeArrayItems, hd, List.append_eq, ih]
        cases h1 : decodeArrayItems c xs with
        | error e => rfl
        | ok r1 =>
          cases r1 with
          | err e => rfl
          | ok ws1 =>
            cases h2 : decodeArrayItems c l₂ with
            | error e => rfl
            | ok r2 => cases r2 <;> rfl

/-- Claim C6: the array codec fails with "expected array" on any
non-array node; on an array it decodes items in input order and returns
the first item failure unchanged, independently of the items after the
failing one; on full success it returns the decoded items in input
order. -/
theorem C6_array_decode (c : Codec) :
    (∀ data, (∀ xs, data ≠ JS.arr xs) →
      (array c).decode data = .ok (.err "expected array")) ∧
    (∀ pre ws x e rest, decodeArrayItems c pre = .ok (.ok ws) →
      c.decode x = .ok (.err e) →
      (array c).decode (.arr (pre ++ x :: rest)) = .ok (.err e)) ∧
    (∀ xs ws, List.Forall₂ (fun x w => c.decode x = .ok (.ok w)) xs ws →
      (array c).decode (.arr xs) = .ok (.ok (.arr ws))) := by
  refine ⟨fun data h => ?_, fun pre ws x e rest h1 h2 => ?_, fun xs ws h => ?_⟩
  · cases data with
    | arr xs => exact absurd rfl (h xs)
    | str s => rfl
    | num n => rfl
    | bool b => rfl
    | null => rfl
    | obj kvs => rfl
    | undefined => rfl
  · simp [array, decodeArray, decodeArrayItems_append, h1, decodeArrayItems, h2]
  · have key : decodeArrayItems c xs = .ok (.ok ws) := by
      induction h with
      | nil => rfl
      | cons h1 _ ih => simp [decodeArrayItems, h1, ih]
    simp [array, decodeArray, key]

/-- Witness for C6: with the number element codec, a generic object is
rejected with "expected array"; the spec example [1, "x", 3] fails on
the second item with the number mismatch message, with the same outcome
whatever replaces the third item; [1, 2] decodes to [1, 2]. -/
theorem C6_array_decode_witness :
    (array number).decode (.obj []) = .ok (.err "expected array") ∧
    (array number).decode (.arr [.num 1, .str "x", .num 3]) =
      .ok (.err "expected number ") ∧
    (array number).decode (.arr [.num 1, .str "x", .num 99]) =
      .ok (.err "expected number ") ∧
    (array number).decode (.arr [.num 1, .num 2]) = .ok (.ok (.arr [.num 1, .num 2])) :=
  ⟨(C6_array_decode number).1 (.obj []) (fun _ h => JS.noConfusion h),
    (C6_array_decode number).2.1 [.num 1] [.num 1] (.str "x") "expected number "
      [.num 3] rfl rfl,
    (C6_array_decode number).2.1 [.num 1] [.num 1] (.str "x") "expected number "
      [.num 99] rfl rfl,
    (C6_array_decode number).2.2 [.num 1, .num 2] [.num 1, .num 2]
      (.cons rfl (.cons rfl .nil))⟩

/-- The field loop of decodeRecord splits over append of the declared
field list, in declaration order. -/
theorem decodeRecordFields_append (data : JS) (l₁ l₂ : List (String × Codec)) :
    decodeRecordFields data (l₁ ++ l₂) =
      match decodeRecordFields data l₁ with
      | .error e => .error e
      | .ok (.err e) => .ok (.err e)
      | .ok (.ok ws) =>
        match decodeRecordFields data l₂ with
        | .error e => .error e
        | .ok (.err e) => .ok (.err e)
        | .ok (.ok ws₂) => .ok (.ok (ws ++ ws₂)) := by
  induction l₁ with
  | nil =>
    simp only [List.nil_append, decodeRecordFields]
    cases h : decodeRecordFields data l₂ with
    | error e => rfl
    | ok r => cases r <;> rfl
  | cons kc l₁ ih =>
    obtain ⟨k, c⟩ := kc
    cases hacc : getPropE data k with
    | error e => simp [decodeRecordFields, hacc]
    | ok val =>
      cases hf : falsy val with
      | true => simp [decodeRecordFields, hacc, hf]
      | false =>
        cases hd : c.decode val with
        | error e => simp [decodeRecordFields, hacc, hf, hd]
        | ok r =>
          cases r with
          | err e => simp [decodeRecordFields, hacc, hf, hd]
          | ok w =>
            simp only [List.cons_append, decodeRecordFields, hacc, hf, hd,
              Bool.false_eq_true, if_false, List.append_eq, ih]
            cases h1 : decodeRecordFields data l₁ with
            | error e => rfl
            | ok r1 =>
              cases r1 with
              | err e => rfl
              | ok ws1 =>
                cases h2 : decodeRecordFields data l₂ with
                | error e => rfl
                | ok r2 => cases r2 <;> rfl

/-- The enlarged field list keeps the declared names. -/
theorem enlarge_append (l₁ l₂ : List (String × Codec)) :
    enlarge (l₁ ++ l₂) = enlarge l₁ ++ enlarge l₂ := by
  simp [enlarge]

/-- Claim C3: when a record codec decodes an object in which every field
before k decodes successfully and the field k is present but bound to a
falsy value (such as 0, false or the empty string), the decode fails
with exactly the message "missing field k", the same outcome as for an
absent key, whatever the fields after k. -/
theorem C3_falsy_field_as_missing (pre : List (String × Codec)) (k : String)
    (c : Codec) (rest : List (String × Codec)) (kvs : List (String × JS))
    (val : JS) (ws : List (String × JS))
    (h1 : decodeRecordFields (.obj kvs) (enlarge pre) = .ok (.ok ws))
    (h2 : lookupField kvs k = some val) (h3 : falsy val = true) :
    (record (pre ++ (k, c) :: rest)).decode (.obj kvs) =
      .ok (.err ("missing field " ++ k)) := by
  have henl : enlarge ((k, c) :: rest) =
      (k, c.sel (fun r => getProp r k)) :: enlarge rest := rfl
  simp only [record, decodeRecord, jsTypeof, enlarge_append, henl, reduceIte,
    decodeRecordFields_append, h1, decodeRecordFields, getPropE, h2,
    Option.getD_some, h3, if_true]

/-- Witness for C3: decoding the object with name "John" and age 0
against the record codec of a string name and a numeric age fails with
"missing field age", even though the age key is present with a value of
the declared type. -/
theorem C3_falsy_field_as_missing_witness :
    (record [("name", string), ("age", number)]).decode
        (.obj [("name", .str "John"), ("age", .num 0)]) =
      .ok (.err "missing field age") :=
  C3_falsy_field_as_missing [("name", string)] "age" number []
    [("name", .str "John"), ("age", .num 0)] (.num 0) [("name", .str "John")]
    rfl rfl rfl

/-- Claim C5: a record codec checks its fields in declaration order and
short-circuits: when the first declared field key is absent from the
incoming object the decode fails with the message naming that field,
whatever comes later; and when every field before k succeeds and the
field k is present, truthy, but rejected by its field codec, the decode
returns that field failure unchanged, independently of the fields after
k. -/
theorem C5_record_declaration_order (k : String) (c : Codec)
    (rest : List (String × Codec)) (kvs : List (String × JS)) :
    (lookupField kvs k = none →
      (record ((k, c) :: rest)).decode (.obj kvs) =
        .ok (.err ("missing field " ++ k))) ∧
    (∀ pre val ws e,
      decodeRecordFields (.obj kvs) (enlarge pre) = .ok (.ok ws) →
      lookupField kvs k = some val → falsy val = false →
      c.decode val = .ok (.err e) →
      (record (pre ++ (k, c) :: rest)).decode (.obj kvs) = .ok (.err e)) := by
  constructor
  · intro h
    have henl : enlarge ((k, c) :: rest) =
        (k, c.sel (fun r => getProp r k)) :: enlarge rest := rfl
    simp [record, decodeRecord, jsTypeof, henl, decodeRecordFields, getPropE, h, falsy]
  · intro pre val ws e h1 h2 h3 h4
    have henl : enlarge ((k, c) :: rest) =
        (k, c.sel (fun r => getProp r k)) :: enlarge rest := rfl
    have hdec : (c.sel (fun r => getProp r k)).decode val = .ok (.err e) := h4
    simp only [record, decodeRecord, jsTypeof, enlarge_append, henl, reduceIte,
      decodeRecordFields_append, h1, decodeRecordFields, getPropE, h2,
      Option.getD_some, h3, Bool.false_eq_true, if_false, hdec]

/-- Witness for C5: decoding the empty object against the record codec
with fields name (string) then age (number) fails with "missing field
name"; and decoding an object whose name field is a number against the
same codec fails with the string mismatch of the first field without
looking at the age field. -/
theorem C5_record_declaration_order_witness :
    (record [("name", string), ("age", number)]).decode (.obj []) =
      .ok (.err "missing field name") ∧
    (record [("name", string), ("age", number)]).decode
        (.obj [("name", .num 7), ("age", .num 3)]) =
      .ok (.err "expected string") :=
  ⟨(C5_record_declaration_order "name" string [("age", number)] []).1 rfl,
    (C5_record_declaration_order "name" string [("age", number)]
        [("name", .num 7), ("age", .num 3)]).2 [] (.num 7) [] "expected string"
      rfl rfl rfl rfl⟩

/-- Enlarging field codecs keeps the declared names. -/
theorem enlarge_keys (l : List (String × Codec)) :
    (enlarge l).map Prod.fst = l.map Prod.fst := by
  simp [enlarge, List.map_map, Function.comp_def]

/-- The field loop of decodeRecord reads the incoming object only
through lookups of the declared keys: two objects agreeing on those
lookups decode identically. -/
theorem decodeRecordFields_lookup_congr (l : List (String × Codec))
    (kvs kvs' : List (String × JS))
    (h : ∀ k, k ∈ l.map Prod.fst → lookupField kvs k = lookupField kvs' k) :
    decodeRecordFields (.obj kvs) l = decodeRecordFields (.obj kvs') l := by
  induction l with
  | nil => rfl
  | cons kc rest ih =>
    obtain ⟨k, c⟩ := kc
    have hk : lookupField kvs k = lookupField kvs' k := h k (by simp)
    have hrest : ∀ k, k ∈ rest.map Prod.fst →
        lookupField kvs k = lookupField kvs' k :=
      fun k hm => h k (by simp [hm])
    simp only [decodeRecordFields, getPropE, hk, ih hrest]

/-- On a fully successful field loop, the decoded entries carry exactly
the declared keys, in declaration order. -/
theorem decodeRecordFields_ok_keys (data : JS) (l : List (String × Codec)) :
    ∀ ws, decodeRecordFields data l = .ok (.ok ws) →
      ws.map Prod.fst = l.map Prod.fst := by
  induction l with
  | nil =>
    intro ws h
    simp only [decodeRecordFields] at h
    cases h
    rfl
  | cons kc rest ih =>
    obtain ⟨k, c⟩ := kc
    intro ws h
    simp only [decodeRecordFields] at h
    cases hacc : getPropE data k with
    | error e => rw [hacc] at h; cases h
    | ok val =>
      rw [hacc] at h
      cases hf : falsy val with
      | true => simp [hf] at h
      | false =>
        simp only [hf, Bool.false_eq_true, if_false] at h
        cases hd : c.decode val with
        | error e => rw [hd] at h; cases h
        | ok r =>
          rw [hd] at h
          cases r with
          | err e => cases h
          | ok w =>
            cases hr : decodeRecordFields data rest with
            | error e => rw [hr] at h; cases h
            | ok r2 =>
              rw [hr] at h
              cases r2 with
              | err e => cases h
              | ok ws2 =>
                cases h
                simp [ih ws2 hr]

/-- Claim C10: the record codec restricts both directions to the
declared field specification.  Encoding any value produces an object
node carrying exactly the declared keys, so extra properties of the
input are dropped; decoding reads the incoming object only through the
declared keys, so the outcome is independent of undeclared entries; and
a successful decode assembles an object carrying exactly the declared
keys. -/
theorem C10_record_declared_fields (codecs : List (String × Codec)) :
    (∀ x, ∃ kvs, (record codecs).encode x = .obj kvs ∧
      kvs.map Prod.fst = codecs.map Prod.fst) ∧
    (∀ kvs kvs',
      (∀ k, k ∈ codecs.map Prod.fst → lookupField kvs k = lookupField kvs' k) →
      (record codecs).decode (.obj kvs) = (record codecs).decode (.obj kvs')) ∧
    (∀ data w, (record codecs).decode data = .ok (.ok w) →
      ∃ kvs, w = .obj kvs ∧ kvs.map Prod.fst = codecs.map Prod.fst) := by
  refine ⟨fun x => ?_, fun kvs kvs' h => ?_, fun data w h => ?_⟩
  · refine ⟨(enlarge codecs).map (fun kc => (kc.1, kc.2.encode x)), ?_, ?_⟩
    · rfl
    · have := enlarge_keys codecs
      simp only [List.map_map, Function.comp_def] at this ⊢
      exact this
  · have h' : ∀ k, k ∈ (enlarge codecs).map Prod.fst →
        lookupField kvs k = lookupField kvs' k := by
      intro k hk
      exact h k (by rwa [enlarge_keys] at hk)
    simp only [record, decodeRecord, jsTypeof,
      decodeRecordFields_lookup_congr (enlarge codecs) kvs kvs' h']
  · simp only [record, decodeRecord] at h
    by_cases hty : jsTypeof data = "object"
    · rw [if_pos hty] at h
      cases hr : decodeRecordFields data (enlarge codecs) with
      | error e => rw [hr] at h; cases h
      | ok r =>
        rw [hr] at h
        cases r with
        | err e => cases h
        | ok ws =>
          cases h
          refine ⟨ws, rfl, ?_⟩
          rw [decodeRecordFields_ok_keys data (enlarge codecs) ws hr,
            enlarge_keys]
    · rw [if_neg hty] at h
      cases h

/-- Witness for C10: with the single declared field name, an extra
incoming entry does not change the decode, the successful decode drops
the extra entry, and encoding keeps exactly the declared key. -/
theorem C10_record_declared_fields_witness :
    (record [("name", string)]).decode
        (.obj [("name", .str "John"), ("extra", .num 1)]) =
      (record [("name", string)]).decode (.obj [("name", .str "John")]) ∧
    (∃ kvs, (JS.obj [("name", JS.str "John")]) = .obj kvs ∧
      kvs.map Prod.fst = [("name", string)].map Prod.fst) ∧
    (∃ kvs, (record [("name", string)]).encode
        (.obj [("name", .str "John"), ("extra", .num 1)]) = .obj kvs ∧
      kvs.map Prod.fst = [("name", string)].map Prod.fst) :=
  ⟨(C10_record_declared_fields [("name", string)]).2.1
      [("name", .str "John"), ("extra", .num 1)] [("name", .str "John")]
      (by intro k hk; simp only [List.map_cons, List.map_nil,
        List.mem_singleton] at hk; subst hk; rfl),
    (C10_record_declared_fields [("name", string)]).2.2
      (.obj [("name", .str "John"), ("extra", .num 1)])
      (.obj [("name", .str "John")]) rfl,
    (C10_record_declared_fields [("name", string)]).1
      (.obj [("name", .str "John"), ("extra", .num 1)])⟩

/-- Encoding a record value with the enlarged interpreted field list
produces exactly the encoded entries of its declared fields. -/
theorem encEntries_interp (fs : CFields) (v : JS) :
    (enlarge (interpFields fs)).map (fun kc => (kc.1, kc.2.encode v)) = encFields fs v := by
  cases fs with
  | fnil => rfl
  | fcons k c rest =>
    have ih := encEntries_interp rest v
    simp only [interpFields, enlarge, List.map_cons, encFields] at ih ⊢
    exact congrArg (List.cons _) ih

/-- encodeRecord on the enlarged interpreted field list yields the
object of the encoded entries. -/
theorem encodeRecord_interp (fs : CFields) (v : JS) :
    encodeRecord v (enlarge (interpFields fs)) = .obj (encFields fs v) :=
  congrArg JS.obj (encEntries_interp fs v)

/-- Prepending an entry with an undeclared key does not disturb the
lookups of the declared fields. -/
theorem encLookups_extend (fs : CFields) (E : List (String × JS)) (v : JS)
    (k : String) (w : JS) (hk : k ∉ fieldNames fs) (h : EncLookups fs E v) :
    EncLookups fs ((k, w) :: E) v := by
  cases fs with
  | fnil => trivial
  | fcons k1 c rest =>
    simp only [fieldNames, List.mem_cons, not_or] at hk
    obtain ⟨h1, h2⟩ := h
    refine ⟨?_, encLookups_extend rest E v k w hk.2 h2⟩
    rw [lookupField, if_neg hk.1]
    exact h1

/-- With distinct declared names, the encoded entries of a record value
look up to exactly the encoded field values. -/
theorem encLookups_self (fs : CFields) (v : JS)
    (hnodup : (fieldNames fs).Nodup) : EncLookups fs (encFields fs v) v := by
  cases fs with
  | fnil => trivial
  | fcons k c rest =>
    simp only [fieldNames, List.nodup_cons] at hnodup
    refine ⟨?_, encLookups_extend rest (encFields rest v) v k _ hnodup.1
      (encLookups_self rest v hnodup.2)⟩
    rw [encFields, lookupField, if_pos rfl]

/-- Reassembling the declared fields does not look at an entry whose key
is undeclared. -/
theorem fieldsOf_extend (fs : CFields) (k : String) (w : JS)
    (kvs : List (String × JS)) (hk : k ∉ fieldNames fs) :
    fieldsOf fs (.obj ((k, w) :: kvs)) = fieldsOf fs (.obj kvs) := by
  cases fs with
  | fnil => rfl
  | fcons k1 c rest =>
    simp only [fieldNames, List.mem_cons, not_or] at hk
    have hget : getProp (.obj ((k, w) :: kvs)) k1 = getProp (.obj kvs) k1 := by
      simp [getProp, getPropE, lookupField, hk.1]
    simp [fieldsOf, hget, fieldsOf_extend rest k w kvs hk.2]

/-- Reassembling the declared fields of an object carrying exactly the
declared keys, with distinct names, returns the object entries
unchanged. -/
theorem fieldsOf_self (fs : CFields) (kvs : List (String × JS))
    (hkeys : kvs.map Prod.fst = fieldNames fs)
    (hnodup : (fieldNames fs).Nodup) : fieldsOf fs (.obj kvs) = kvs := by
  cases fs with
  | fnil =>
    simp only [fieldNames, List.map_eq_nil_iff] at hkeys
    simp [fieldsOf, hkeys]
  | fcons k c rest =>
    cases kvs with
    | nil => simp [fieldNames] at hkeys
    | cons kv kvs' =>
      obtain ⟨k0, w⟩ := kv
      simp only [fieldNames, List.map_cons, List.cons.injEq] at hkeys
      obtain ⟨rfl, hkeys'⟩ := hkeys
      simp only [fieldNames, List.nodup_cons] at hnodup
      have hget : getProp (.obj ((k0, w) :: kvs')) k0 = w := by
        simp [getProp, getPropE, lookupField]
      rw [fieldsOf, hget, fieldsOf_extend rest k0 w kvs' hnodup.1,
        fieldsOf_self rest kvs' hkeys' hnodup.2]

mutual

/-- Round trip of an interpreted codec expression: on a value of the
encode domain whose record fields all encode truthily, decoding the
encoding succeeds with the value unchanged. -/
theorem roundtripAux (c : CodecExpr) (v : JS) (hd : Dom c v)
    (ht : EncTruthy c v) :
    (interp c).decode ((interp c).encode v) = .ok (.ok v) := by
  cases c with
  | cstring =>
    obtain ⟨s, rfl⟩ := hd
    rfl
  | cnumber =>
    obtain ⟨n, rfl⟩ := hd
    rfl
  | cboolean =>
    obtain ⟨b, rfl⟩ := hd
    rfl
  | carray c =>
    obtain ⟨xs, rfl, hxs⟩ := hd
    have htx : ∀ x ∈ xs, EncTruthy c x := ht xs rfl
    have key := roundtripItemsAux c xs hxs htx
    show (array (interp c)).decode ((array (interp c)).encode (.arr xs)) = _
    simp [array, decodeArray, key]
  | ciso c f g =>
    obtain ⟨hdc, hfg⟩ := hd
    have h1 := roundtripAux c (g v) hdc ht
    show (((interp c).map f).sel g).decode ((((interp c).map f).sel g).encode v) = _
    simp [Codec.sel, Codec.map, h1, mapResult, hfg]
  | crecord fs =>
    obtain ⟨⟨kvs, rfl, hkeys⟩, hnodup, hdf⟩ := hd
    have htf : EncTruthyFields fs (.obj kvs) := ht
    have hlook := encLookups_self fs (.obj kvs) hnodup
    have hfields := roundtripFieldsAux fs (.obj kvs) (encFields fs (.obj kvs))
      hdf htf hlook
    show (record (interpFields fs)).decode
      ((record (interpFields fs)).encode (.obj kvs)) = _
    have henc : (record (interpFields fs)).encode (.obj kvs) =
        .obj (encFields fs (.obj kvs)) := encodeRecord_interp fs (.obj kvs)
    rw [henc]
    show decodeRecord (.obj (encFields fs (.obj kvs))) (enlarge (interpFields fs)) = _
    rw [decodeRecord,
      if_pos (show jsTypeof (JS.obj (encFields fs (JS.obj kvs))) = "object" from rfl),
      hfields, fieldsOf_self fs kvs hkeys hnodup]

/-- Round trip of the array item loop over encoded items. -/
theorem roundtripItemsAux (c : CodecExpr) (l : List JS)
    (hdl : ∀ x ∈ l, Dom c x) (htl : ∀ x ∈ l, EncTruthy c x) :
    decodeArrayItems (interp c) (l.map (interp c).encode) = .ok (.ok l) := by
  cases l with
  | nil => rfl
  | cons y ys =>
    have h1 := roundtripAux c y (hdl y (by simp)) (htl y (by simp))
    have h2 := roundtripItemsAux c ys (fun x hx => hdl x (by simp [hx]))
      (fun x hx => htl x (by simp [hx]))
    simp [decodeArrayItems, h1, h2]

/-- Round trip of the record field loop over the encoded entries. -/
theorem roundtripFieldsAux (fs : CFields) (v : JS) (E : List (String × JS))
    (hdf : DomFields fs v) (htf : EncTruthyFields fs v)
    (hlook : EncLookups fs E v) :
    decodeRecordFields (.obj E) (enlarge (interpFields fs)) =
      .ok (.ok (fieldsOf fs v)) := by
  cases fs with
  | fnil => rfl
  | fcons k c rest =>
    obtain ⟨hd1, hd2⟩ := hdf
    obtain ⟨ht1, ht2, ht3⟩ := htf
    obtain ⟨hl1, hl2⟩ := hlook
    have h1 := roundtripAux c (getProp v k) hd1 ht2
    have hdec : ((interp c).sel (fun r => getProp r k)).decode
        ((interp c).encode (getProp v k)) = .ok (.ok (getProp v k)) := h1
    have h2 := roundtripFieldsAux rest v E hd2 ht3 hl2
    show decodeRecordFields (.obj E)
      ((k, (interp c).sel (fun r => getProp r k)) :: enlarge (interpFields rest)) = _
    rw [decodeRecordFields, getPropE, hl1]
    simp only [Option.getD_some, ht1, Bool.false_eq_true, if_false, hdec, h2]
    rfl

end

/-- Claim C1 as amended: the round-trip law holds for every codec built
from the primitives, the array combinator, the record combinator, and
map/sel stages whose transform undoes the selection, on every value of
its encode domain in which every record field encountered encodes to a
truthy node: decoding the encoding returns ok with the value unchanged.
The truthiness proviso is forced by the record decoder treating a falsy
field value as missing. -/
theorem C1_roundtrip_amended (c : CodecExpr) (v : JS) (hd : Dom c v)
    (ht : EncTruthy c v) :
    (interp c).decode ((interp c).encode v) = .ok (.ok v) :=
  roundtripAux c v hd ht

/-- Counterexample to claim C1 as stated: the record codec with the
single numeric field age, applied to the domain value with age 0,
encodes to an object whose age entry is 0; decoding that encoding fails
with "missing field age" because the presence check treats the falsy
value 0 as absent, so the round trip does not return ok. -/
theorem C1_counterexample :
    Dom (.crecord (.fcons "age" .cnumber .fnil)) (.obj [("age", .num 0)]) ∧
    (interp (.crecord (.fcons "age" .cnumber .fnil))).decode
        ((interp (.crecord (.fcons "age" .cnumber .fnil))).encode
          (.obj [("age", .num 0)])) =
      .ok (.err "missing field age") :=
  ⟨⟨⟨[("age", .num 0)], rfl, rfl⟩, by decide, ⟨0, rfl⟩, trivial⟩, rfl⟩

/-- Witness for the amended C1: the record codec with a string name and
a numeric age round-trips the object with name "John" and age 18. -/
theorem C1_roundtrip_amended_witness :
    (interp (.crecord (.fcons "name" .cstring (.fcons "age" .cnumber .fnil)))).decode
        ((interp (.crecord (.fcons "name" .cstring (.fcons "age" .cnumber .fnil)))).encode
          (.obj [("name", .str "John"), ("age", .num 18)])) =
      .ok (.ok (.obj [("name", .str "John"), ("age", .num 18)])) :=
  C1_roundtrip_amended (.crecord (.fcons "name" .cstring (.fcons "age" .cnumber .fnil)))
    (.obj [("name", .str "John"), ("age", .num 18)])
    ⟨⟨[("name", .str "John"), ("age", .num 18)], rfl, rfl⟩, by decide,
      ⟨"John", rfl⟩, ⟨18, rfl⟩, trivial⟩
    ⟨rfl, trivial, rfl, trivial, trivial⟩

end CodecLib
